import Mathlib

/-!
Verification development for the vizon-core ingestion pipeline (src/app.py).

This file shallowly embeds the input-to-structured-table normalization
pipeline of the Streamlit application: the markdown-fence stripper
`clean_json_string`, the JSON parser backing `json.loads`, the
`pd.DataFrame`-from-records construction, the `gemini_data_extractor`
response normalizer, the `scrape_url` content acquirer, the request
assembly sent to the external model, and the startup API-key check.
All definitions are executable; stateful library calls (HTTP fetch,
Streamlit `st.error` and `st.stop`) are modelled by explicit data
(`FetchOutcome`, the returned error message, a `Bool` stop flag).
-/

set_option maxRecDepth 4000

namespace Vizon

/-! ## Python string primitives -/

/-- Characters treated as whitespace by Python `str.strip` (ASCII range;
the rarely-relevant extra Unicode space code points are not modelled). -/
def pySpace (c : Char) : Bool :=
  c = ' ' || c = '\t' || c = '\n' || c = '\r' || c = '\x0b' || c = '\x0c'

/-- Leading-whitespace removal, first half of Python `str.strip`. -/
def dropLeading (s : List Char) : List Char := s.dropWhile pySpace

/-- Trailing-whitespace removal, second half of Python `str.strip`. -/
def dropTrailing (s : List Char) : List Char := (s.reverse.dropWhile pySpace).reverse

/-- Python `str.strip()` on a character list. -/
def pyStrip (s : List Char) : List Char := dropTrailing (dropLeading s)

/-- Boolean list-prefix test (used for the left-to-right scan of
Python `str.replace`). -/
def hasPref : List Char → List Char → Bool
  | [], _ => true
  | _ :: _, [] => false
  | p :: ps, c :: cs => p == c && hasPref ps cs

/-- Fueled worker for `replaceAll`.  Mirrors CPython `str.replace`:
scan left to right; at each position either the pattern matches (emit the
replacement and resume after the matched occurrence) or the current
character is copied.  Fuel equal to the input length is always enough
because every step consumes at least one character. -/
def replaceAllAux (pat rep : List Char) : Nat → List Char → List Char
  | _, [] => []
  | 0, s => s
  | n + 1, c :: cs =>
    if hasPref pat (c :: cs) then
      rep ++ replaceAllAux pat rep n (cs.drop (pat.length - 1))
    else
      c :: replaceAllAux pat rep n cs

/-- Python `text.replace(pat, rep)` on character lists: replaces every
non-overlapping occurrence of `pat`, scanning left to right. -/
def replaceAll (pat rep s : List Char) : List Char :=
  replaceAllAux pat rep s.length s

/-- The character-list body of `clean_json_string` (src/app.py lines 78-81):
`text.replace("```json", "").replace("```", "").strip()`. -/
def cleanChars (s : List Char) : List Char :=
  pyStrip (replaceAll "```".data [] (replaceAll "```json".data [] s))

/-- `clean_json_string` (src/app.py lines 78-81): strips markdown code-block
markers from the model response by deleting every occurrence of the
substrings ```` ```json ```` and ```` ``` ```` and then stripping
surrounding whitespace. -/
def clean_json_string (text : String) : String :=
  ⟨cleanChars text.data⟩

/-! ## JSON values and the `json.loads` model -/

/-- Parsed JSON values as produced by Python `json.loads`.  Numbers are
modelled exactly as rationals (ints and decimal floats used by the
pipeline are represented exactly); the CPython extensions `NaN`,
`Infinity` and `-Infinity`, accepted by `json.loads` by default, get
their own constructors since they are not rationals. -/
inductive Json where
  | null
  | bool (b : Bool)
  | num (q : ℚ)
  | str (s : String)
  | nan
  | inf (negative : Bool)
  | arr (elements : List Json)
  | obj (members : List (String × Json))
  deriving Repr

/-- JSON inter-token whitespace accepted by `json.loads`. -/
def jsonWs (c : Char) : Bool :=
  c = ' ' || c = '\t' || c = '\n' || c = '\r'

/-- Skip JSON whitespace. -/
def skipWs (s : List Char) : List Char := s.dropWhile jsonWs

/-- Numeric value of a list of decimal digit characters. -/
def natOfDigits (ds : List Char) : Nat :=
  ds.foldl (fun a c => a * 10 + (c.toNat - 48)) 0

/-- Python-dict insertion used while parsing a JSON object: a repeated key
keeps its first position but takes the latest value, as with CPython
dicts. -/
def objInsert (k : String) (v : Json) (m : List (String × Json)) :
    List (String × Json) :=
  if m.any (fun p => p.1 == k) then
    m.map (fun p => if p.1 == k then (p.1, v) else p)
  else
    m ++ [(k, v)]

/-- Numeric value of a hexadecimal digit character, if any. -/
def hexVal (c : Char) : Option Nat :=
  if '0' ≤ c && c ≤ '9' then some (c.toNat - 48)
  else if 'a' ≤ c && c ≤ 'f' then some (c.toNat - 87)
  else if 'A' ≤ c && c ≤ 'F' then some (c.toNat - 55)
  else none

/-- Parse the body of a JSON string literal (the opening quote already
consumed), returning the decoded characters and the input remaining after
the closing quote.  Strict-mode rules of `json.loads`: raw control
characters are rejected, only the standard escapes and `\uXXXX` are
accepted.  (A lone UTF-16 surrogate escape decodes to the null character
here rather than to a surrogate code unit.) -/
def parseStringBody : Nat → List Char → Except String (List Char × List Char)
  | 0, _ => .error "Unterminated string"
  | _ + 1, [] => .error "Unterminated string"
  | n + 1, c :: cs =>
    if c = '"' then .ok ([], cs)
    else if c = '\\' then
      match cs with
      | [] => .error "Unterminated string"
      | e :: cs2 =>
        if e = 'u' then
          match cs2 with
          | h1 :: h2 :: h3 :: h4 :: cs3 =>
            match hexVal h1, hexVal h2, hexVal h3, hexVal h4 with
            | some a, some b, some c2, some d =>
              match parseStringBody n cs3 with
              | .ok (body, rest) =>
                .ok (Char.ofNat (((a * 16 + b) * 16 + c2) * 16 + d) :: body, rest)
              | .error er => .error er
            | _, _, _, _ => .error "Invalid \\uXXXX escape"
          | _ => .error "Invalid \\uXXXX escape"
        else
          match
            (if e = '"' then some '"'
             else if e = '\\' then some '\\'
             else if e = '/' then some '/'
             else if e = 'b' then some '\x08'
             else if e = 'f' then some '\x0c'
             else if e = 'n' then some '\n'
             else if e = 'r' then some '\r'
             else if e = 't' then some '\t'
             else none) with
          | some d =>
            match parseStringBody n cs2 with
            | .ok (body, rest) => .ok (d :: body, rest)
            | .error er => .error er
          | none => .error "Invalid \\escape"
    else if c.toNat < 32 then .error "Invalid control character"
    else
      match parseStringBody n cs with
      | .ok (body, rest) => .ok (c :: body, rest)
      | .error er => .error er

/-- Parse the optional exponent part of a JSON number (the `e`/`E` marker
already consumed): sign flag, exponent magnitude, remaining input. -/
def parseExponent (s : List Char) : Except String (Bool × Nat × List Char) :=
  let signAndRest : Bool × List Char :=
    match s with
    | '+' :: t => (false, t)
    | '-' :: t => (true, t)
    | _ => (false, s)
  let ds := signAndRest.2.takeWhile Char.isDigit
  if ds.isEmpty then .error "Expecting value"
  else .ok (signAndRest.1, natOfDigits ds, signAndRest.2.dropWhile Char.isDigit)

/-- Parse a JSON number (grammar `-?(0|[1-9][0-9]*)(\.[0-9]+)?([eE][+-]?[0-9]+)?`)
into an exact rational. -/
def parseNumber (s : List Char) : Except String (ℚ × List Char) :=
  let negAndRest : Bool × List Char :=
    match s with
    | '-' :: t => (true, t)
    | _ => (false, s)
  let s1 := negAndRest.2
  let ip := s1.takeWhile Char.isDigit
  if ip.isEmpty then .error "Expecting value"
  else if ip.length ≥ 2 && ip.head? == some '0' then .error "Expecting value"
  else
    let s2 := s1.dropWhile Char.isDigit
    let withFrac : Except String (ℚ × List Char) :=
      match s2 with
      | '.' :: t =>
        let fd := t.takeWhile Char.isDigit
        if fd.isEmpty then .error "Expecting value"
        else
          .ok ((natOfDigits ip : ℚ) + (natOfDigits fd : ℚ) / (10 : ℚ) ^ fd.length,
               t.dropWhile Char.isDigit)
      | _ => .ok ((natOfDigits ip : ℚ), s2)
    match withFrac with
    | .error er => .error er
    | .ok (base, s3) =>
      let withExp : Except String (ℚ × List Char) :=
        match s3 with
        | 'e' :: t =>
          match parseExponent t with
          | .error er => .error er
          | .ok (eneg, emag, s4) =>
            .ok ((if eneg then base / (10 : ℚ) ^ emag else base * (10 : ℚ) ^ emag), s4)
        | 'E' :: t =>
          match parseExponent t with
          | .error er => .error er
          | .ok (eneg, emag, s4) =>
            .ok ((if eneg then base / (10 : ℚ) ^ emag else base * (10 : ℚ) ^ emag), s4)
        | _ => .ok (base, s3)
      match withExp with
      | .error er => .error er
      | .ok (q, s4) => .ok ((if negAndRest.1 then -q else q), s4)

/-- Require a fixed literal continuation (for `true`, `false`, `null`,
`NaN`, `Infinity`). -/
def expectLit (lit : List Char) (s : List Char) (j : Json) :
    Except String (Json × List Char) :=
  if hasPref lit s then .ok (j, s.drop lit.length) else .error "Expecting value"

/-- Fueled array-tail loop: parses `value (',' value)* ']'` given the
value parser as an argument (keeping the recursion structural in the
fuel). -/
def parseElemsAux (pv : List Char → Except String (Json × List Char)) :
    Nat → List Char → List Json → Except String (Json × List Char)
  | 0, _, _ => .error "Expecting value"
  | n + 1, s, acc =>
    match pv s with
    | .error er => .error er
    | .ok (j, rest) =>
      match skipWs rest with
      | ']' :: r2 => .ok (.arr (acc ++ [j]), r2)
      | ',' :: r2 => parseElemsAux pv n r2 (acc ++ [j])
      | _ => .error "Expecting ',' delimiter"

/-- Fueled object-member loop: parses `string ':' value (',' string ':' value)* '}'`
given the value parser as an argument. -/
def parseMembersAux (pv : List Char → Except String (Json × List Char)) :
    Nat → List Char → List (String × Json) → Except String (Json × List Char)
  | 0, _, _ => .error "Expecting property name enclosed in double quotes"
  | n + 1, s, acc =>
    match skipWs s with
    | '"' :: r1 =>
      match parseStringBody r1.length r1 with
      | .error er => .error er
      | .ok (key, r2) =>
        match skipWs r2 with
        | ':' :: r3 =>
          match pv r3 with
          | .error er => .error er
          | .ok (v, r4) =>
            let acc2 := objInsert ⟨key⟩ v acc
            match skipWs r4 with
            | '}' :: r5 => .ok (.obj acc2, r5)
            | ',' :: r5 => parseMembersAux pv n r5 acc2
            | _ => .error "Expecting ',' delimiter"
        | _ => .error "Expecting ':' delimiter"
    | _ => .error "Expecting property name enclosed in double quotes"

/-- Fueled JSON value parser: the core of the `json.loads` model.
Leading whitespace is skipped; the dispatch on the first character
mirrors the CPython scanner (objects, arrays, strings, the three
keyword literals, the non-standard `NaN`/`Infinity`/`-Infinity`
constants, and numbers). -/
def parseValue : Nat → List Char → Except String (Json × List Char)
  | 0, _ => .error "Expecting value"
  | n + 1, s =>
    match skipWs s with
    | [] => .error "Expecting value"
    | c :: cs =>
      if c = '{' then
        match skipWs cs with
        | '}' :: r => .ok (.obj [], r)
        | _ => parseMembersAux (parseValue n) n cs []
      else if c = '[' then
        match skipWs cs with
        | ']' :: r => .ok (.arr [], r)
        | _ => parseElemsAux (parseValue n) n cs []
      else if c = '"' then
        match parseStringBody cs.length cs with
        | .error er => .error er
        | .ok (body, rest) => .ok (.str ⟨body⟩, rest)
      else if c = 't' then expectLit "rue".data cs (.bool true)
      else if c = 'f' then expectLit "alse".data cs (.bool false)
      else if c = 'n' then expectLit "ull".data cs .null
      else if c = 'N' then expectLit "aN".data cs .nan
      else if c = 'I' then expectLit "nfinity".data cs (.inf false)
      else if c = '-' && cs.head? == some 'I' then
        match cs with
        | _ :: cs2 => expectLit "nfinity".data cs2 (.inf true)
        | [] => .error "Expecting value"
      else
        match parseNumber (c :: cs) with
        | .error er => .error er
        | .ok (q, rest) => .ok (.num q, rest)

/-- The `json.loads` model: parse one JSON value and require only
whitespace to remain, as CPython does (`Extra data` otherwise). -/
def Json.parse (s : String) : Except String Json :=
  match parseValue (s.data.length + 1) s.data with
  | .error er => .error er
  | .ok (j, rest) =>
    if (skipWs rest).isEmpty then .ok j else .error "Extra data"

/-! ## DataFrames and the response normalizer -/

/-- Key list of a record (a parsed JSON object), in member order. -/
def keysOf (m : List (String × Json)) : List String := m.map Prod.fst

/-- Insert a column name unless it is already present (keeps first-seen
order). -/
def insKey (acc : List String) (k : String) : List String :=
  if k ∈ acc then acc else acc ++ [k]

/-- Column list that `pd.DataFrame(list-of-dicts)` infers: the union of
the records' keys in first-seen order. -/
def firstSeenKeys (recs : List (List (String × Json))) : List String :=
  recs.foldl (fun acc m => (keysOf m).foldl insKey acc) []

/-- The tabular structure produced by `pd.DataFrame`: an ordered column
list plus the records.  A record need not mention every column; a
missing key denotes a null (NaN) cell, looked up via `DataFrame.cell`. -/
structure DataFrame where
  columns : List String
  rows : List (List (String × Json))
  deriving Repr

/-- The empty frame `pd.DataFrame()` returned by the exception handler. -/
def DataFrame.empty : DataFrame := ⟨[], []⟩

/-- pandas `df.empty`: true iff either axis has length zero. -/
def DataFrame.isEmpty (df : DataFrame) : Bool :=
  df.columns.isEmpty || df.rows.isEmpty

/-- Cell lookup: the value of column `k` in record `i`, `none` for a
missing row or a key the record does not carry (pandas fills NaN there). -/
def DataFrame.cell (df : DataFrame) (i : Nat) (k : String) : Option Json :=
  match df.rows.get? i with
  | some m => (m.find? (fun p => p.1 == k)).map Prod.snd
  | none => none

/-- View a parsed JSON array's elements as records, failing on any
non-object element. -/
def recordsOf : List Json → Except String (List (List (String × Json)))
  | [] => .ok []
  | .obj m :: rest =>
    match recordsOf rest with
    | .ok recs => .ok (m :: recs)
    | .error er => .error er
  | _ :: _ => .error "DataFrame constructor not properly called"

/-- Model of `pd.DataFrame(data)` for `data` a parsed JSON value.  The
shape the pipeline's extraction contract requests - a JSON array of flat
objects - is modelled exactly (first-seen column union, records kept in
order, missing keys null); every other JSON shape is modelled as a
construction failure, which the caller's exception handler turns into an
empty frame.  (pandas accepts a few further shapes, e.g. an array of
scalars; no claim depends on those.) -/
def pdDataFrameOfJson : Json → Except String DataFrame
  | .arr vs =>
    match recordsOf vs with
    | .ok recs => .ok ⟨firstSeenKeys recs, recs⟩
    | .error er => .error er
  | _ => .error "DataFrame constructor not properly called"

/-- The result of the `try` block of `gemini_data_extractor`
(src/app.py lines 94-98) from the model's reply text onward:
clean the reply, parse it as JSON, build a DataFrame. -/
def extractResult (replyText : String) : Except String DataFrame :=
  match Json.parse (clean_json_string replyText) with
  | .error er => .error er
  | .ok j => pdDataFrameOfJson j

/-- `gemini_data_extractor` (src/app.py lines 83-101), as a function of
the Extraction Service's reply text: returns the constructed DataFrame,
or the empty frame `pd.DataFrame()` when the `except` branch runs.  The
function is total: every exception of the `try` block is caught. -/
def gemini_data_extractor (replyText : String) : DataFrame :=
  match extractResult replyText with
  | .ok df => df
  | .error _ => DataFrame.empty

/-- The `st.error` message displayed by the `except` branch of
`gemini_data_extractor` (src/app.py line 100), `none` when extraction
succeeds. -/
def extractionErrorShown (replyText : String) : Option String :=
  match extractResult replyText with
  | .ok _ => none
  | .error er => some ("AI Extraction Failed: " ++ er)

/-- The dashboard guard `df is not None and not df.empty`
(src/app.py line 158): `true` shows the dashboard, `false` the landing
page. -/
def dashboardShown (df : Option DataFrame) : Bool :=
  match df with
  | none => false
  | some d => !d.isEmpty

/-! ## Content acquirer: `scrape_url` -/

/-- Outcome of `requests.get(url)`: either a response (any HTTP status -
`requests` raises no exception for 4xx/5xx statuses and the code never
checks `status_code`) carrying the page body, or a raised transport
exception (unreachable host, DNS failure, timeout) carrying its message. -/
inductive FetchOutcome where
  | response (status : Nat) (body : String)
  | exception (message : String)

/-- Fueled HTML text-node splitter modelling what
`BeautifulSoup(page.content, 'html.parser')` exposes to `get_text`:
markup between `<` and `>` is dropped, the character data between tags is
kept as fragments.  (Entity decoding and the comment/CDATA special cases
are not modelled; no claim depends on them.)  Fuel equal to the input
length always suffices. -/
def splitTextAux : Nat → List Char → List (List Char)
  | 0, _ => []
  | _ + 1, [] => []
  | n + 1, c :: cs =>
    if c = '<' then
      splitTextAux n ((cs.dropWhile (fun d => d != '>')).drop 1)
    else
      (c :: cs.takeWhile (fun d => d != '<')) ::
        splitTextAux n (cs.dropWhile (fun d => d != '<'))

/-- The text fragments of an HTML page, in document order. -/
def textFragments (body : String) : List (List Char) :=
  splitTextAux body.data.length body.data

/-- `soup.get_text(separator=' ', strip=True)`: every text fragment is
stripped, empty fragments are dropped, and the remainder are joined with
single spaces.  Note that fragments inside `script` and `style` elements
are included - `get_text` does not distinguish them. -/
def soup_get_text (body : String) : String :=
  ⟨List.intercalate [' ']
    (((textFragments body).map pyStrip).filter (fun f => !f.isEmpty))⟩

/-- `scrape_url` (src/app.py lines 103-110) as a function of the fetch
outcome: on any returned response, extract the text and keep the first
10,000 characters; on a raised exception, return the error-description
string built by the `except` branch. -/
def scrape_url (outcome : FetchOutcome) : String :=
  match outcome with
  | .response _ body => ⟨(soup_get_text body).data.take 10000⟩
  | .exception e => "Error scraping URL: " ++ e

/-- Fueled whitespace tokenizer: the maximal non-whitespace runs of a
character list (used to state "collapse whitespace" as the spec words
it). -/
def wordsAux : Nat → List Char → List (List Char)
  | 0, _ => []
  | _ + 1, [] => []
  | n + 1, c :: cs =>
    if pySpace c then wordsAux n cs
    else
      (c :: cs.takeWhile (fun d => !pySpace d)) ::
        wordsAux n (cs.dropWhile (fun d => !pySpace d))

/-- Skip everything up to and including the closing tag `</tag ...>`
(helper for the spec-side visible-text definition). -/
def closeTagSkip (tag : List Char) : Nat → List Char → List Char
  | 0, s => s
  | _ + 1, [] => []
  | n + 1, c :: cs =>
    if hasPref ('<' :: '/' :: tag) (c :: cs) then
      ((c :: cs).dropWhile (fun d => d != '>')).drop 1
    else closeTagSkip tag n cs

/-- Fueled fragment collector that drops the content of `script` and
`style` elements (helper for the spec-side visible-text definition). -/
def specVisibleAux : Nat → List Char → List (List Char)
  | 0, _ => []
  | _ + 1, [] => []
  | n + 1, c :: cs =>
    if c = '<' then
      let tag := cs.takeWhile (fun d => d != '>')
      let rest := (cs.dropWhile (fun d => d != '>')).drop 1
      if hasPref "script".data tag then
        specVisibleAux n (closeTagSkip "script".data rest.length rest)
      else if hasPref "style".data tag then
        specVisibleAux n (closeTagSkip "style".data rest.length rest)
      else specVisibleAux n rest
    else
      (c :: cs.takeWhile (fun d => d != '<')) ::
        specVisibleAux n (cs.dropWhile (fun d => d != '<'))

/-- Spec-side definition, following the spec's words rather than the
source, for comparison against `scrape_url`: "extract visible text only
(strip markup, scripts, styles), collapse whitespace" - the page's text
fragments outside `script`/`style` elements, split into words, joined by
single spaces. -/
def specVisibleText (body : String) : String :=
  ⟨List.intercalate [' ']
    (List.flatten ((specVisibleAux body.data.length body.data).map
      (fun f => wordsAux f.length f)))⟩

/-! ## Structuring request builder -/

/-- An image payload (opaque bytes are enough for the request model). -/
structure ImageContent where
  pixels : List Nat

/-- One part of a `model.generate_content` request. -/
inductive RequestPart where
  | text (s : String)
  | image (img : ImageContent)

/-- The fixed extraction contract `system_prompt` of
`gemini_data_extractor` (src/app.py lines 85-92), reproducing the Python
triple-quoted literal. -/
def system_prompt : String :=
  "\n    You are a Data Extraction Engine. \n    Analyze the provided input and extract structured data.\n    Output ONLY valid JSON. \n    Format: [\x7b\"Column1\": \"Value\", \"Column2\": 10, ...\x7d]\n    If dates exist, format as YYYY-MM-DD.\n    Ensure numeric fields are numbers, not strings.\n    "

/-- The task hint used by the image branch of the sidebar
(src/app.py line 135). -/
def imageHint : String :=
  "Extract all tabular data visible in this image. Focus on items, quantities, prices, categories, or dates."

/-- The task hint used by the URL branch of the sidebar
(src/app.py line 143). -/
def urlHint : String :=
  "Analyze this website text. Extract any lists, tables, or product data into a structured JSON."

/-- The request parts `[system_prompt, prompt, content]` passed to
`model.generate_content` (src/app.py line 95). -/
def extractionRequest (hint : String) (content : RequestPart) : List RequestPart :=
  [.text system_prompt, .text hint, content]

/-- The request sent for the image source kind (src/app.py lines 130-136). -/
def imageRequest (img : ImageContent) : List RequestPart :=
  extractionRequest imageHint (.image img)

/-- The request sent for the URL source kind (src/app.py lines 138-144):
the scraped text, whatever it is, becomes the text content. -/
def urlRequest (outcome : FetchOutcome) : List RequestPart :=
  extractionRequest urlHint (.text (scrape_url outcome))

/-! ## Startup credential check -/

/-- Resolution of the API key (src/app.py lines 56-59): the secrets-store
lookup result is used whenever the lookup itself succeeds (even if the
stored value is empty); only a raised `FileNotFoundError`/`KeyError`
(`none` here) falls back to `os.getenv`, whose result may itself be
`none` (unset) or `some ""` (set but empty). -/
def resolveApiKey (secretsLookup envLookup : Option String) : Option String :=
  match secretsLookup with
  | some v => some v
  | none => envLookup

/-- Whether startup executes `st.stop()` (src/app.py lines 61-63): the
Python truthiness test `if not api_key` stops for a missing key and for
an empty-string key alike. -/
def startupStops (secretsLookup envLookup : Option String) : Bool :=
  match resolveApiKey secretsLookup envLookup with
  | none => true
  | some k => k == ""

/-! ## Lemmas about `replaceAll` (the Python `str.replace` model) -/

theorem hasPref_iff (p l : List Char) : hasPref p l = true ↔ p <+: l := by
  induction p generalizing l with
  | nil => simp only [hasPref, true_iff]; exact ⟨l, rfl⟩
  | cons a ps ih =>
    cases l with
    | nil =>
      simp only [hasPref, Bool.false_eq_true, false_iff]
      intro h
      exact absurd (List.eq_nil_of_length_eq_zero (Nat.le_zero.mp h.length_le)) (by simp)
    | cons c cs =>
      simp [hasPref, List.cons_prefix_cons, ih, Bool.and_eq_true, beq_iff_eq]

theorem replaceAllAux_nil (pat rep : List Char) (n : Nat) :
    replaceAllAux pat rep n [] = [] := by
  cases n <;> rfl

theorem replaceAllAux_congr (pat rep : List Char) :
    ∀ n m s, s.length ≤ n → s.length ≤ m →
      replaceAllAux pat rep n s = replaceAllAux pat rep m s := by
  intro n
  induction n with
  | zero =>
    intro m s hn _
    rw [List.length_eq_zero.mp (Nat.le_zero.mp hn), replaceAllAux_nil, replaceAllAux_nil]
  | succ n ih =>
    intro m s hn hm
    cases s with
    | nil => rw [replaceAllAux_nil, replaceAllAux_nil]
    | cons c cs =>
      cases m with
      | zero => simp at hm
      | succ m' =>
        have hcs : cs.length ≤ n := by simpa using hn
        have hcs' : cs.length ≤ m' := by simpa using hm
        simp only [replaceAllAux]
        by_cases h : hasPref pat (c :: cs) = true
        · rw [if_pos h, if_pos h,
            ih m' (cs.drop (pat.length - 1)) (le_trans (by simp) hcs)
              (le_trans (by simp) hcs')]
        · rw [if_neg h, if_neg h, ih m' cs hcs hcs']

theorem replaceAll_nil (pat rep : List Char) : replaceAll pat rep [] = [] := rfl

theorem replaceAll_cons_pos (pat rep : List Char) (c : Char) (cs : List Char)
    (h : pat <+: c :: cs) :
    replaceAll pat rep (c :: cs) = rep ++ replaceAll pat rep (cs.drop (pat.length - 1)) := by
  have hb : hasPref pat (c :: cs) = true := (hasPref_iff _ _).mpr h
  show replaceAllAux pat rep (c :: cs).length (c :: cs) = _
  simp only [List.length_cons, replaceAllAux, hb, if_pos]
  exact congrArg (rep ++ ·)
    (replaceAllAux_congr pat rep cs.length _ _ (by simp) le_rfl)

theorem replaceAll_cons_neg (pat rep : List Char) (c : Char) (cs : List Char)
    (h : ¬ pat <+: c :: cs) :
    replaceAll pat rep (c :: cs) = c :: replaceAll pat rep cs := by
  have hb : hasPref pat (c :: cs) = false := by
    cases hx : hasPref pat (c :: cs) with
    | true => exact absurd ((hasPref_iff _ _).mp hx) h
    | false => rfl
  show replaceAllAux pat rep (c :: cs).length (c :: cs) = _
  simp only [List.length_cons, replaceAllAux, hb]
  rfl

theorem replaceAll_match (pat rep : List Char) (l : List Char)
    (hne : pat ≠ []) (h : pat <+: l) :
    replaceAll pat rep l = rep ++ replaceAll pat rep (l.drop pat.length) := by
  cases l with
  | nil =>
    exact absurd (List.eq_nil_of_length_eq_zero (Nat.le_zero.mp h.length_le)) hne
  | cons c cs =>
    rw [replaceAll_cons_pos pat rep c cs h]
    cases pat with
    | nil => exact absurd rfl hne
    | cons p ps => simp [List.drop_succ_cons]

theorem infixOfPref {x y : List Char} (h : x <+: y) : x <:+: y := by
  obtain ⟨t, ht⟩ := h
  exact ⟨[], t, by simpa using ht⟩

/-- Occurrences of a pattern cannot span a separator character the
pattern does not contain, so Python `replace` distributes over such a
separator.  Core compositionality fact behind the fence-stripping
claims. -/
theorem replaceAll_split_aux (pat rep : List Char) (sep : Char) (b : List Char)
    (hne : pat ≠ []) (hsep : sep ∉ pat) :
    ∀ n a, a.length ≤ n → replaceAll pat rep (a ++ sep :: b) =
      replaceAll pat rep a ++ sep :: replaceAll pat rep b := by
  have hHead : ∀ t : List Char, ¬ pat <+: sep :: t := by
    intro t hp
    cases pat with
    | nil => exact hne rfl
    | cons p ps =>
      obtain ⟨hpc, -⟩ := List.cons_prefix_cons.mp hp
      exact hsep (hpc ▸ List.mem_cons_self p ps)
  intro n
  induction n with
  | zero =>
    intro a ha
    rw [List.length_eq_zero.mp (Nat.le_zero.mp ha)]
    rw [List.nil_append, replaceAll_nil, List.nil_append,
      replaceAll_cons_neg pat rep sep b (hHead b)]
  | succ n ih =>
    intro a ha
    cases a with
    | nil =>
      rw [List.nil_append, replaceAll_nil, List.nil_append,
        replaceAll_cons_neg pat rep sep b (hHead b)]
    | cons c a' =>
      have ha' : a'.length ≤ n := by simpa using ha
      by_cases h : pat <+: (c :: a') ++ sep :: b
      · -- the match lies entirely inside `c :: a'`
        have hlen : pat.length ≤ (c :: a').length := by
          by_contra hgt
          push_neg at hgt
          have hpe : pat = ((c :: a') ++ sep :: b).take pat.length :=
            List.prefix_iff_eq_take.mp h
          rw [List.take_append_eq_append_take,
            List.take_of_length_le (le_of_lt hgt)] at hpe
          obtain ⟨k, hk⟩ : ∃ k, pat.length - (c :: a').length = k + 1 :=
            ⟨pat.length - (c :: a').length - 1, by simp at hgt ⊢; omega⟩
          rw [hk, List.take_succ_cons] at hpe
          exact hsep (by rw [hpe]; simp)
        have hpa : pat <+: c :: a' := by
          have hpe : pat = ((c :: a') ++ sep :: b).take pat.length :=
            List.prefix_iff_eq_take.mp h
          rw [List.take_append_eq_append_take, Nat.sub_eq_zero_of_le hlen,
            List.take_zero, List.append_nil] at hpe
          exact hpe ▸ ⟨(c :: a').drop pat.length, List.take_append_drop _ _⟩
        have hk1 : pat.length - 1 ≤ a'.length := by
          have := hlen
          simp at this
          omega
        rw [List.cons_append,
          replaceAll_cons_pos pat rep c (a' ++ sep :: b) (List.cons_append c a' (sep :: b) ▸ h),
          replaceAll_cons_pos pat rep c a' hpa,
          List.drop_append_eq_append_drop, Nat.sub_eq_zero_of_le hk1,
          List.drop_zero,
          ih (a'.drop (pat.length - 1)) (le_trans (by simp) ha'),
          List.append_assoc]
      · have hpa : ¬ pat <+: c :: a' := by
          intro hp
          exact h (hp.trans (List.prefix_append (c :: a') (sep :: b)))
        rw [List.cons_append,
          replaceAll_cons_neg pat rep c (a' ++ sep :: b)
            (fun hp => h (List.cons_append c a' (sep :: b) ▸ hp)),
          replaceAll_cons_neg pat rep c a' hpa, ih a' ha', List.cons_append]

theorem replaceAll_split (pat rep : List Char) (sep : Char) (a b : List Char)
    (hne : pat ≠ []) (hsep : sep ∉ pat) :
    replaceAll pat rep (a ++ sep :: b) =
      replaceAll pat rep a ++ sep :: replaceAll pat rep b :=
  replaceAll_split_aux pat rep sep b hne hsep a.length a le_rfl

/-- If the pattern occurs nowhere in the input, Python `replace` is the
identity. -/
theorem replaceAll_no_occurrence (pat rep : List Char) :
    ∀ s, ¬ pat <:+: s → replaceAll pat rep s = s := by
  intro s
  induction s with
  | nil => intro _; rfl
  | cons c cs ih =>
    intro h
    have hp : ¬ pat <+: c :: cs := fun hp => h (infixOfPref hp)
    rw [replaceAll_cons_neg pat rep c cs hp,
      ih (fun hi => h (List.infix_cons hi))]

/-- The backtick character (written by code point to keep it out of the
source text). -/
def tick : Char := Char.ofNat 96

/-- Length of the leading run of backticks. -/
def leadTicks : List Char → Nat
  | [] => 0
  | c :: cs => if c = tick then leadTicks cs + 1 else 0

theorem tp_eq_replicate : "```".data = List.replicate 3 tick := by decide

theorem replicate_tick_pref_iff (k : Nat) :
    ∀ l : List Char, List.replicate k tick <+: l ↔ k ≤ leadTicks l := by
  induction k with
  | zero => intro l; simp
  | succ k ih =>
    intro l
    cases l with
    | nil =>
      simp only [List.replicate_succ, leadTicks, Nat.le_zero]
      constructor
      · intro h
        exact absurd (List.eq_nil_of_length_eq_zero (Nat.le_zero.mp h.length_le))
          (by simp)
      · omega
    | cons c cs =>
      rw [List.replicate_succ, List.cons_prefix_cons, ih cs]
      simp only [leadTicks]
      by_cases hc : c = tick
      · simp [hc]
      · rw [if_neg hc]
        constructor
        · rintro ⟨h1, -⟩
          exact absurd h1.symm hc
        · omega

theorem leadTicks_cons_tick (cs : List Char) :
    leadTicks (tick :: cs) = leadTicks cs + 1 := by
  simp [leadTicks]

/-- After `text.replace("```", "")` no occurrence of three consecutive
backticks remains: every segment copied between two matches ends in a
non-backtick (otherwise the scan would have matched one position
earlier), so removals cannot splice a new occurrence together.  Proved
with the strengthened invariant that the leading backtick run never
grows. -/
theorem replaceAll_ticks_aux :
    ∀ (n : Nat) (s : List Char), s.length ≤ n →
      ¬ ("```".data <:+: replaceAll "```".data [] s) ∧
      leadTicks (replaceAll "```".data [] s) ≤ leadTicks s := by
  intro n
  induction n with
  | zero =>
    intro s hs
    rw [List.length_eq_zero.mp (Nat.le_zero.mp hs), replaceAll_nil]
    exact ⟨by rw [List.infix_nil]; decide, le_rfl⟩
  | succ n ih =>
    intro s hs
    cases s with
    | nil =>
      rw [replaceAll_nil]
      exact ⟨by rw [List.infix_nil]; decide, le_rfl⟩
    | cons c cs =>
      have hcs : cs.length ≤ n := by simpa using hs
      by_cases h : "```".data <+: c :: cs
      · obtain ⟨t, ht⟩ := h
        rw [show "```".data = [tick, tick, tick] from by decide] at ht
        simp only [List.cons_append, List.nil_append, List.cons.injEq] at ht
        obtain ⟨hc1, hc2⟩ := ht
        have hdrop : cs.drop ("```".data.length - 1) = t := by
          rw [← hc2]; rfl
        have hpref : "```".data <+: c :: cs := by
          refine ⟨t, ?_⟩
          rw [show "```".data = [tick, tick, tick] from by decide]
          simp [hc1, ← hc2]
        have hmatch := replaceAll_cons_pos "```".data [] c cs hpref
        rw [hdrop, List.nil_append] at hmatch
        have hlt : t.length ≤ n := by
          rw [← hc2] at hcs
          simp at hcs
          omega
        obtain ⟨ih1, ih2⟩ := ih t hlt
        refine ⟨by rw [hmatch]; exact ih1, ?_⟩
        rw [hmatch, ← hc1, ← hc2, leadTicks_cons_tick, leadTicks_cons_tick,
          leadTicks_cons_tick]
        omega
      · have hstep := replaceAll_cons_neg "```".data [] c cs h
        obtain ⟨ih1, ih2⟩ := ih cs hcs
        constructor
        · rw [hstep]
          intro hinf
          rcases List.infix_cons_iff.mp hinf with hp | hi
          · have h3 : 3 ≤ leadTicks (c :: replaceAll "```".data [] cs) := by
              rw [← replicate_tick_pref_iff, ← tp_eq_replicate]
              exact hp
            by_cases hc : c = tick
            · rw [hc, leadTicks_cons_tick] at h3
              have h3' : 3 ≤ leadTicks (c :: cs) := by
                rw [hc, leadTicks_cons_tick]
                omega
              exact h (by
                rw [tp_eq_replicate]
                exact (replicate_tick_pref_iff 3 (c :: cs)).mpr h3')
            · simp [leadTicks, hc] at h3
          · exact ih1 hi
        · rw [hstep]
          by_cases hc : c = tick
          · rw [hc, leadTicks_cons_tick, leadTicks_cons_tick]
            omega
          · simp [leadTicks, hc]

/-! ## Lemmas about `pyStrip` -/

theorem dropWhile_idem (p : Char → Bool) (l : List Char) :
    List.dropWhile p (List.dropWhile p l) = List.dropWhile p l := by
  induction l with
  | nil => rfl
  | cons c cs ih =>
    by_cases h : p c
    · simp [List.dropWhile_cons, h, ih]
    · simp [List.dropWhile_cons, h]

theorem infixOfSuff {x y : List Char} (h : x <:+ y) : x <:+: y := by
  obtain ⟨t, ht⟩ := h
  exact ⟨t, [], by simpa using ht⟩

theorem revPrefOfSuff {x y : List Char} (h : x <:+ y) :
    x.reverse <+: y.reverse := by
  obtain ⟨t, ht⟩ := h
  exact ⟨t.reverse, by rw [← List.reverse_append, ht]⟩

theorem dropTrailing_pref (l : List Char) : dropTrailing l <+: l := by
  have h0 : l.reverse.dropWhile pySpace <:+ l.reverse :=
    List.dropWhile_suffix pySpace
  have h := revPrefOfSuff h0
  rw [List.reverse_reverse] at h
  exact h

theorem dropTrailing_idem (l : List Char) :
    dropTrailing (dropTrailing l) = dropTrailing l := by
  unfold dropTrailing
  rw [List.reverse_reverse, dropWhile_idem]

theorem pyStrip_sublistOf (l : List Char) : pyStrip l <:+: l :=
  (infixOfPref (dropTrailing_pref (dropLeading l))).trans
    (infixOfSuff (List.dropWhile_suffix pySpace))

theorem dropLeading_dropTrailing (y : List Char) (hy : dropLeading y = y) :
    dropLeading (dropTrailing y) = dropTrailing y := by
  cases hdt : dropTrailing y with
  | nil => rfl
  | cons d t =>
    have hp : (d :: t) <+: y := hdt ▸ dropTrailing_pref y
    obtain ⟨r, hr⟩ := hp
    have hy' : y = d :: (t ++ r) := by rw [← hr]; rfl
    have hd : pySpace d = false := by
      by_contra hsp
      rw [Bool.not_eq_false] at hsp
      rw [hy'] at hy
      unfold dropLeading at hy
      rw [List.dropWhile_cons, if_pos hsp] at hy
      have hlen : (List.dropWhile pySpace (t ++ r)).length ≤ (t ++ r).length :=
        (List.dropWhile_suffix pySpace).length_le
      have h1 := congrArg List.length hy
      rw [List.length_cons] at h1
      omega
    show List.dropWhile pySpace (d :: t) = d :: t
    rw [List.dropWhile_cons, if_neg (by simp [hd])]

theorem pyStrip_idem (l : List Char) : pyStrip (pyStrip l) = pyStrip l := by
  show dropTrailing (dropLeading (dropTrailing (dropLeading l)))
    = dropTrailing (dropLeading l)
  rw [dropLeading_dropTrailing (dropLeading l) (dropWhile_idem pySpace l),
    dropTrailing_idem]

theorem pyStrip_cons_space (c : Char) (h : pySpace c = true) (l : List Char) :
    pyStrip (c :: l) = pyStrip l := by
  show dropTrailing (List.dropWhile pySpace (c :: l))
    = dropTrailing (List.dropWhile pySpace l)
  rw [List.dropWhile_cons, if_pos h]

theorem dropTrailing_append_space (c : Char) (h : pySpace c = true)
    (l : List Char) : dropTrailing (l ++ [c]) = dropTrailing l := by
  unfold dropTrailing
  rw [List.reverse_append]
  simp [List.dropWhile_cons, h]

theorem pyStrip_append_space (c : Char) (h : pySpace c = true) :
    ∀ l, pyStrip (l ++ [c]) = pyStrip l := by
  intro l
  induction l with
  | nil =>
    show pyStrip ([] ++ [c]) = pyStrip []
    rw [List.nil_append]
    show dropTrailing (List.dropWhile pySpace [c])
      = dropTrailing (List.dropWhile pySpace [])
    rw [List.dropWhile_cons, if_pos h]
  | cons d l' ih =>
    by_cases hd : pySpace d = true
    · rw [List.cons_append, pyStrip_cons_space d hd (l' ++ [c]), ih,
        ← pyStrip_cons_space d hd l']
    · have hd' : pySpace d = false := by
        cases hx : pySpace d with
        | true => exact absurd hx hd
        | false => rfl
      have hL1 : dropLeading (d :: (l' ++ [c])) = d :: (l' ++ [c]) := by
        unfold dropLeading
        rw [List.dropWhile_cons, if_neg (by simp [hd'])]
      have hL2 : dropLeading (d :: l') = d :: l' := by
        unfold dropLeading
        rw [List.dropWhile_cons, if_neg (by simp [hd'])]
      calc dropTrailing (dropLeading ((d :: l') ++ [c]))
          = dropTrailing ((d :: l') ++ [c]) := by rw [List.cons_append, hL1]
        _ = dropTrailing (d :: l') := dropTrailing_append_space c h _
        _ = dropTrailing (dropLeading (d :: l')) := by rw [hL2]

/-! ## Main facts about `cleanChars` -/

theorem cleanChars_no_ticks (s : List Char) :
    ¬ ("```".data <:+: cleanChars s) := fun h =>
  (replaceAll_ticks_aux (replaceAll "```json".data [] s).length
      (replaceAll "```json".data [] s) le_rfl).1
    (h.trans (pyStrip_sublistOf _))

theorem cleanChars_no_fence_marker (s : List Char) :
    ¬ ("```json".data <:+: cleanChars s) := fun h =>
  cleanChars_no_ticks s ((by decide : "```".data <:+: "```json".data).trans h)

/-- Stripping the fence markers is idempotent: a cleaned reply contains
no marker any more, so a second pass only re-strips whitespace, which is
also idempotent. -/
theorem cleanChars_idem (s : List Char) :
    cleanChars (cleanChars s) = cleanChars s := by
  show pyStrip (replaceAll "```".data []
      (replaceAll "```json".data [] (cleanChars s))) = cleanChars s
  rw [replaceAll_no_occurrence "```json".data [] (cleanChars s)
      (cleanChars_no_fence_marker s),
    replaceAll_no_occurrence "```".data [] (cleanChars s)
      (cleanChars_no_ticks s)]
  show pyStrip (pyStrip (replaceAll "```".data []
      (replaceAll "```json".data [] s)))
    = pyStrip (replaceAll "```".data [] (replaceAll "```json".data [] s))
  exact pyStrip_idem _

theorem not_pref_of_head_ne (p : List Char) (c : Char) (x : List Char)
    (hne : p ≠ []) (hc : p.head? ≠ some c) : ¬ p <+: c :: x := by
  intro h
  cases p with
  | nil => exact hne rfl
  | cons q qs =>
    obtain ⟨hq, -⟩ := List.cons_prefix_cons.mp h
    exact hc (by rw [List.head?_cons, hq])

/-- Wrapping a reply in the ```` ```json ```` markdown fence does not
change the cleaned text: the newline between the markers and the payload
prevents any occurrence from spanning the junction, the two markers are
deleted, and the extra newlines are stripped. -/
theorem cleanChars_fence (s : List Char) :
    cleanChars ("```json\n".data ++ s ++ "\n```".data) = cleanChars s := by
  have hstruct : "```json\n".data ++ s ++ "\n```".data
      = "```json".data ++ ('\n' :: (s ++ '\n' :: "```".data)) := by
    rw [show "```json\n".data = "```json".data ++ ['\n'] from by decide,
      show ("\n```".data : List Char) = '\n' :: "```".data from by decide]
    simp [List.append_assoc]
  rw [hstruct]
  show pyStrip (replaceAll "```".data [] (replaceAll "```json".data [] _)) = _
  rw [replaceAll_match "```json".data [] _ (by decide)
      (List.prefix_append _ _),
    List.drop_left, List.nil_append,
    replaceAll_cons_neg "```json".data [] '\n' _
      (not_pref_of_head_ne _ _ _ (by decide) (by decide)),
    replaceAll_split "```json".data [] '\n' s "```".data (by decide) (by decide),
    replaceAll_no_occurrence "```json".data [] "```".data (by decide),
    replaceAll_cons_neg "```".data [] '\n' _
      (not_pref_of_head_ne _ _ _ (by decide) (by decide)),
    replaceAll_split "```".data [] '\n' _ "```".data (by decide) (by decide),
    show replaceAll "```".data [] "```".data = [] from by decide,
    pyStrip_cons_space '\n' (by decide) _,
    pyStrip_append_space '\n' (by decide) _]
  rfl

/-- The same for the plain ```` ``` ```` fence form. -/
theorem cleanChars_fence_plain (s : List Char) :
    cleanChars ("```\n".data ++ s ++ "\n```".data) = cleanChars s := by
  have hstruct : "```\n".data ++ s ++ "\n```".data
      = "```".data ++ ('\n' :: (s ++ '\n' :: "```".data)) := by
    rw [show ("```\n".data : List Char) = "```".data ++ ['\n'] from by decide,
      show ("\n```".data : List Char) = '\n' :: "```".data from by decide]
    simp [List.append_assoc]
  rw [hstruct]
  show pyStrip (replaceAll "```".data [] (replaceAll "```json".data [] _)) = _
  rw [replaceAll_split "```json".data [] '\n' "```".data
      (s ++ '\n' :: "```".data) (by decide) (by decide),
    replaceAll_no_occurrence "```json".data [] "```".data (by decide),
    replaceAll_split "```json".data [] '\n' s "```".data (by decide) (by decide),
    replaceAll_no_occurrence "```json".data [] "```".data (by decide),
    replaceAll_match "```".data [] _ (by decide) (List.prefix_append _ _),
    List.drop_left, List.nil_append,
    replaceAll_cons_neg "```".data [] '\n' _
      (not_pref_of_head_ne _ _ _ (by decide) (by decide)),
    replaceAll_split "```".data [] '\n' _ "```".data (by decide) (by decide),
    show replaceAll "```".data [] "```".data = [] from by decide,
    pyStrip_cons_space '\n' (by decide) _,
    pyStrip_append_space '\n' (by decide) _]
  rfl

/-! ## Lemmas about the normalizer -/

theorem recordsOf_map_obj (objs : List (List (String × Json))) :
    recordsOf (objs.map Json.obj) = .ok objs := by
  induction objs with
  | nil => rfl
  | cons m rest ih => simp [recordsOf, ih]

/-- Shared helper: on a reply whose cleaned text parses as a JSON array
of objects, the `try` block succeeds with exactly those records and the
first-seen column union. -/
theorem extract_ok (reply : String) (objs : List (List (String × Json)))
    (hparse : Json.parse (clean_json_string reply)
      = .ok (Json.arr (objs.map Json.obj))) :
    extractResult reply = .ok ⟨firstSeenKeys objs, objs⟩ := by
  unfold extractResult
  rw [hparse]
  show pdDataFrameOfJson (Json.arr (objs.map Json.obj)) = _
  simp [pdDataFrameOfJson, recordsOf_map_obj]

/-- Shared helper: the DataFrame such a reply produces. -/
theorem extract_ok_frame (reply : String) (objs : List (List (String × Json)))
    (hparse : Json.parse (clean_json_string reply)
      = .ok (Json.arr (objs.map Json.obj))) :
    gemini_data_extractor reply = ⟨firstSeenKeys objs, objs⟩ := by
  unfold gemini_data_extractor
  rw [extract_ok reply objs hparse]

/-- Shared helper: a parse failure propagates to the `except` branch,
producing the empty frame. -/
theorem extract_fail_frame (reply : String) (msg : String)
    (hfail : Json.parse (clean_json_string reply) = .error msg) :
    gemini_data_extractor reply = DataFrame.empty := by
  unfold gemini_data_extractor extractResult
  rw [hfail]

theorem foldl_insKey_of_all_mem :
    ∀ (ks acc : List String), (∀ k ∈ ks, k ∈ acc) →
      ks.foldl insKey acc = acc := by
  intro ks
  induction ks with
  | nil => intro acc _; rfl
  | cons k ks' ih =>
    intro acc h
    rw [List.foldl_cons, show insKey acc k = acc from by
      unfold insKey; rw [if_pos (h k (List.mem_cons_self k ks'))]]
    exact ih acc (fun x hx => h x (List.mem_cons_of_mem k hx))

theorem foldl_insKey_of_all_not_mem :
    ∀ (ks acc : List String), ks.Nodup → (∀ k ∈ ks, k ∉ acc) →
      ks.foldl insKey acc = acc ++ ks := by
  intro ks
  induction ks with
  | nil => intro acc _ _; simp
  | cons k ks' ih =>
    intro acc hnd h
    rw [List.foldl_cons, show insKey acc k = acc ++ [k] from by
      unfold insKey; rw [if_neg (h k (List.mem_cons_self k ks'))]]
    rw [ih (acc ++ [k]) (List.nodup_cons.mp hnd).2 ?_]
    · simp
    · intro x hx hmem
      rcases List.mem_append.mp hmem with hac | hk
      · exact h x (List.mem_cons_of_mem k hx) hac
      · exact (List.nodup_cons.mp hnd).1 (by
          rw [show x = k from by simpa using hk] at hx
          exact hx)

theorem mem_foldl_insKey_of_mem_acc :
    ∀ (ks acc : List String) (k : String), k ∈ acc →
      k ∈ ks.foldl insKey acc := by
  intro ks
  induction ks with
  | nil => intro acc k h; exact h
  | cons x ks' ih =>
    intro acc k h
    rw [List.foldl_cons]
    refine ih (insKey acc x) k ?_
    unfold insKey
    by_cases hx : x ∈ acc
    · rw [if_pos hx]; exact h
    · rw [if_neg hx]; exact List.mem_append_left [x] h

theorem mem_foldl_insKey_of_mem :
    ∀ (ks acc : List String) (k : String), k ∈ ks →
      k ∈ ks.foldl insKey acc := by
  intro ks
  induction ks with
  | nil => intro acc k h; simp at h
  | cons x ks' ih =>
    intro acc k h
    rw [List.foldl_cons]
    rcases List.mem_cons.mp h with hk | hk
    · refine mem_foldl_insKey_of_mem_acc ks' (insKey acc x) k ?_
      unfold insKey
      by_cases hx : x ∈ acc
      · rw [if_pos hx, hk]; exact hx
      · rw [if_neg hx, hk]
        exact List.mem_append_right acc (List.mem_singleton.mpr rfl)
    · exact ih (insKey acc x) k hk

theorem firstSeen_foldl_of_subset :
    ∀ (recs : List (List (String × Json))) (acc : List String),
      (∀ m ∈ recs, ∀ k ∈ keysOf m, k ∈ acc) →
      recs.foldl (fun a m => (keysOf m).foldl insKey a) acc = acc := by
  intro recs
  induction recs with
  | nil => intro acc _; rfl
  | cons r rest ih =>
    intro acc h
    rw [List.foldl_cons,
      foldl_insKey_of_all_mem (keysOf r) acc
        (fun k hk => h r (List.mem_cons_self r rest) k hk)]
    exact ih acc (fun m hm k hk => h m (List.mem_cons_of_mem r hm) k hk)

theorem mem_firstSeen_foldl_acc :
    ∀ (recs : List (List (String × Json))) (acc : List String) (k : String),
      k ∈ acc → k ∈ recs.foldl (fun a m => (keysOf m).foldl insKey a) acc := by
  intro recs
  induction recs with
  | nil => intro acc k h; exact h
  | cons r rest ih =>
    intro acc k h
    rw [List.foldl_cons]
    exact ih _ k (mem_foldl_insKey_of_mem_acc (keysOf r) acc k h)

theorem mem_firstSeen_foldl :
    ∀ (recs : List (List (String × Json))) (acc : List String)
      (m : List (String × Json)) (k : String),
      m ∈ recs → k ∈ keysOf m →
      k ∈ recs.foldl (fun a m => (keysOf m).foldl insKey a) acc := by
  intro recs
  induction recs with
  | nil => intro acc m k h _; simp at h
  | cons r rest ih =>
    intro acc m k hm hk
    rw [List.foldl_cons]
    rcases List.mem_cons.mp hm with hr | hr
    · exact mem_firstSeen_foldl_acc rest _ k
        (mem_foldl_insKey_of_mem (keysOf r) acc k (hr ▸ hk))
    · exact ih _ m k hr hk

/-- Every key of every record appears in the first-seen column union. -/
theorem mem_firstSeenKeys (recs : List (List (String × Json)))
    (m : List (String × Json)) (k : String) (hm : m ∈ recs)
    (hk : k ∈ keysOf m) : k ∈ firstSeenKeys recs :=
  mem_firstSeen_foldl recs [] m k hm hk

/-- The key list of the first record ([] when there are none): when all
records share one key set, this is that key set in first-seen order. -/
def headKeys : List (List (String × Json)) → List String
  | [] => []
  | m :: _ => keysOf m

theorem firstSeenKeys_of_same_keyset (m0 : List (String × Json))
    (rest : List (List (String × Json)))
    (hnd : (keysOf m0).Nodup)
    (hsub : ∀ m ∈ rest, ∀ k ∈ keysOf m, k ∈ keysOf m0) :
    firstSeenKeys (m0 :: rest) = keysOf m0 := by
  show (m0 :: rest).foldl _ [] = keysOf m0
  rw [List.foldl_cons]
  have h0 : (keysOf m0).foldl insKey [] = keysOf m0 := by
    have h := foldl_insKey_of_all_not_mem (keysOf m0) [] hnd (by simp)
    simpa using h
  rw [h0]
  exact firstSeen_foldl_of_subset rest (keysOf m0) hsub

/-! ## The claims -/

/-- Claim C1: for every Extraction Service reply whose cleaned text
parses as a JSON array of N flat objects (N ≥ 0) that all have the same
key set, the Response Normalizer returns a Table with exactly N records
and a column list equal to that key set in first-seen order (i.e. the
key order of the first record). -/
theorem c1_consistent_keys (reply : String)
    (objs : List (List (String × Json)))
    (hparse : Json.parse (clean_json_string reply)
      = .ok (Json.arr (objs.map Json.obj)))
    (hnodup : ∀ m ∈ objs, (keysOf m).Nodup)
    (hsame : ∀ m ∈ objs, ∀ m' ∈ objs,
      (keysOf m).toFinset = (keysOf m').toFinset) :
    (gemini_data_extractor reply).rows.length = objs.length ∧
    (gemini_data_extractor reply).columns = headKeys objs := by
  rw [extract_ok_frame reply objs hparse]
  refine ⟨rfl, ?_⟩
  cases objs with
  | nil => rfl
  | cons m0 rest =>
    show firstSeenKeys (m0 :: rest) = keysOf m0
    refine firstSeenKeys_of_same_keyset m0 rest
      (hnodup m0 (List.mem_cons_self _ _)) ?_
    intro m hm k hk
    have hms := hsame m (List.mem_cons_of_mem _ hm) m0 (List.mem_cons_self _ _)
    have hmem : k ∈ (keysOf m).toFinset := List.mem_toFinset.mpr hk
    rw [hms] at hmem
    exact List.mem_toFinset.mp hmem

/-- Witness for C1 on the concrete reply `[{"a": 1}, {"a": 2}]`: two
records with the shared key set, columns `["a"]`. -/
theorem c1_consistent_keys_witness :
    Json.parse (clean_json_string "[\x7b\"a\": 1\x7d, \x7b\"a\": 2\x7d]")
      = .ok (Json.arr ([[("a", Json.num 1)], [("a", Json.num 2)]].map Json.obj)) ∧
    (gemini_data_extractor "[\x7b\"a\": 1\x7d, \x7b\"a\": 2\x7d]").rows.length = 2 ∧
    (gemini_data_extractor "[\x7b\"a\": 1\x7d, \x7b\"a\": 2\x7d]").columns = ["a"] := by
  have hparse : Json.parse (clean_json_string "[\x7b\"a\": 1\x7d, \x7b\"a\": 2\x7d]")
      = .ok (Json.arr ([[("a", Json.num 1)], [("a", Json.num 2)]].map Json.obj)) := by
    rfl
  have h := c1_consistent_keys "[\x7b\"a\": 1\x7d, \x7b\"a\": 2\x7d]"
    [[("a", Json.num 1)], [("a", Json.num 2)]] hparse
    (by intro m hm; fin_cases hm <;> decide)
    (by intro m hm m' hm'; fin_cases hm <;> fin_cases hm' <;> decide)
  exact ⟨hparse, h.1, by rw [h.2]; rfl⟩

/-- Claim C2: for every reply text that is not valid JSON after wrapper
stripping, the Response Normalizer returns Failed - the empty frame plus
an error display carrying the underlying parse message - with no partial
recovery.  (The model functions are total, so no fault escapes the
pipeline.) -/
theorem c2_parse_failure (reply msg : String)
    (hfail : Json.parse (clean_json_string reply) = .error msg) :
    gemini_data_extractor reply = DataFrame.empty ∧
    extractionErrorShown reply = some ("AI Extraction Failed: " ++ msg) := by
  refine ⟨extract_fail_frame reply msg hfail, ?_⟩
  unfold extractionErrorShown extractResult
  rw [hfail]

/-- Witness for C2 on the truncated array `[1, 2,` (same behaviour as a
trailing comma): parse failure, empty frame, error message shown. -/
theorem c2_parse_failure_witness :
    Json.parse (clean_json_string "[1, 2,") = .error "Expecting value" ∧
    gemini_data_extractor "[1, 2," = DataFrame.empty ∧
    extractionErrorShown "[1, 2," = some "AI Extraction Failed: Expecting value" := by
  have hfail : Json.parse (clean_json_string "[1, 2,") = .error "Expecting value" := by
    rfl
  have h := c2_parse_failure "[1, 2," "Expecting value" hfail
  exact ⟨hfail, h.1, h.2⟩

/-- Claim C3: wrapping a reply in a markdown code fence (either the
```` ```json ```` or the plain ```` ``` ```` form) does not change what
the Normalizer produces: the cleaned wrapped reply equals the cleaned
unwrapped reply, cleaning is idempotent, and the resulting Table - hence
also its record order - is unchanged. -/
theorem c3_fence_invariance (s : String) :
    clean_json_string ("```json\n" ++ s ++ "\n```") = clean_json_string s ∧
    clean_json_string ("```\n" ++ s ++ "\n```") = clean_json_string s ∧
    clean_json_string (clean_json_string s) = clean_json_string s ∧
    gemini_data_extractor ("```json\n" ++ s ++ "\n```") = gemini_data_extractor s := by
  have h1 : clean_json_string ("```json\n" ++ s ++ "\n```") = clean_json_string s := by
    show (⟨cleanChars ("```json\n" ++ s ++ "\n```").data⟩ : String)
      = ⟨cleanChars s.data⟩
    rw [String.data_append, String.data_append, cleanChars_fence]
  have h2 : clean_json_string ("```\n" ++ s ++ "\n```") = clean_json_string s := by
    show (⟨cleanChars ("```\n" ++ s ++ "\n```").data⟩ : String)
      = ⟨cleanChars s.data⟩
    rw [String.data_append, String.data_append, cleanChars_fence_plain]
  have h3 : clean_json_string (clean_json_string s) = clean_json_string s := by
    show (⟨cleanChars (cleanChars s.data)⟩ : String) = ⟨cleanChars s.data⟩
    rw [cleanChars_idem]
  refine ⟨h1, h2, h3, ?_⟩
  unfold gemini_data_extractor extractResult
  rw [h1]

/-- Claim C4: for every parsed JSON array of flat objects, also with
differing key sets, the Normalizer returns the Table whose column list is
the first-seen union of the records' keys, every record's key set is
contained in the columns, and a record's missing key reads as null
(`none`) rather than raising. -/
theorem c4_union_columns (reply : String)
    (objs : List (List (String × Json)))
    (hparse : Json.parse (clean_json_string reply)
      = .ok (Json.arr (objs.map Json.obj))) :
    gemini_data_extractor reply = ⟨firstSeenKeys objs, objs⟩ ∧
    extractionErrorShown reply = none ∧
    (∀ m ∈ objs, ∀ k ∈ keysOf m, k ∈ (gemini_data_extractor reply).columns) ∧
    (∀ (i : Nat) (m : List (String × Json)) (k : String),
      objs.get? i = some m → k ∉ keysOf m →
      (gemini_data_extractor reply).cell i k = none) := by
  have hframe := extract_ok_frame reply objs hparse
  refine ⟨hframe, ?_, ?_, ?_⟩
  · unfold extractionErrorShown
    rw [extract_ok reply objs hparse]
  · intro m hm k hk
    rw [hframe]
    exact mem_firstSeenKeys objs m k hm hk
  · intro i m k hi hk
    rw [hframe]
    simp only [DataFrame.cell, hi]
    rw [List.find?_eq_none.mpr ?_]
    · rfl
    · intro p hp
      simp only [beq_iff_eq]
      intro hpk
      exact hk (hpk ▸ List.mem_map_of_mem Prod.fst hp)

/-- Witness for C4 on the claim's own example `[{"A":1},{"A":2,"B":"x"}]`:
columns `["A", "B"]` and the first record's `B` cell is null. -/
theorem c4_union_columns_witness :
    Json.parse (clean_json_string "[\x7b\"A\":1\x7d,\x7b\"A\":2,\"B\":\"x\"\x7d]")
      = .ok (Json.arr ([[("A", Json.num 1)],
          [("A", Json.num 2), ("B", Json.str "x")]].map Json.obj)) ∧
    (gemini_data_extractor "[\x7b\"A\":1\x7d,\x7b\"A\":2,\"B\":\"x\"\x7d]").columns
      = ["A", "B"] ∧
    (gemini_data_extractor "[\x7b\"A\":1\x7d,\x7b\"A\":2,\"B\":\"x\"\x7d]").cell 0 "B"
      = none := by
  have hparse : Json.parse (clean_json_string "[\x7b\"A\":1\x7d,\x7b\"A\":2,\"B\":\"x\"\x7d]")
      = .ok (Json.arr ([[("A", Json.num 1)],
          [("A", Json.num 2), ("B", Json.str "x")]].map Json.obj)) := by rfl
  have h := c4_union_columns "[\x7b\"A\":1\x7d,\x7b\"A\":2,\"B\":\"x\"\x7d]"
    [[("A", Json.num 1)], [("A", Json.num 2), ("B", Json.str "x")]] hparse
  refine ⟨hparse, by rw [h.1]; rfl, ?_⟩
  exact h.2.2.2 0 [("A", Json.num 1)] "B" rfl (by decide)

/-- Claim C9 (implicit): a failed extraction and a successful extraction
of the empty JSON array `[]` return the identical value - the empty
0-record, 0-column frame - so the caller cannot tell Failed from
Ok-with-zero-records by the return value, and the dashboard guard shows
the landing state in both cases. -/
theorem c9_failure_vs_empty (reply msg : String)
    (hfail : Json.parse (clean_json_string reply) = .error msg) :
    gemini_data_extractor reply = gemini_data_extractor "[]" ∧
    gemini_data_extractor "[]" = DataFrame.empty ∧
    dashboardShown (some (gemini_data_extractor reply)) = false ∧
    dashboardShown (some (gemini_data_extractor "[]")) = false := by
  have he : gemini_data_extractor "[]" = DataFrame.empty := by rfl
  have hf := extract_fail_frame reply msg hfail
  refine ⟨hf.trans he.symm, he, ?_, ?_⟩
  · rw [hf]; rfl
  · rw [he]; rfl

/-- Witness for C9 on the unparseable reply `not json at all`. -/
theorem c9_failure_vs_empty_witness :
    Json.parse (clean_json_string "not json at all") = .error "Expecting value" ∧
    gemini_data_extractor "not json at all" = gemini_data_extractor "[]" ∧
    dashboardShown (some (gemini_data_extractor "not json at all")) = false := by
  have hfail : Json.parse (clean_json_string "not json at all")
      = .error "Expecting value" := by rfl
  have h := c9_failure_vs_empty "not json at all" "Expecting value" hfail
  exact ⟨hfail, h.1, h.2.2.1⟩

/-- Claim C10 (implicit): wrapper stripping removes every occurrence of
the marker substrings anywhere in the reply - no ```` ``` ```` or
```` ```json ```` survives cleaning at any position - and consequently a
JSON string value that itself contains a fence sequence is altered before
parsing: `[{"a":"x```y"}]` parses to the value `"xy"`, not `"x```y"`. -/
theorem c10_global_marker_removal :
    (∀ s : String, ¬ ("```".data <:+: (clean_json_string s).data) ∧
      ¬ ("```json".data <:+: (clean_json_string s).data)) ∧
    gemini_data_extractor "[\x7b\"a\":\"x```y\"\x7d]"
      = ⟨["a"], [[("a", Json.str "xy")]]⟩ ∧
    ("xy" : String) ≠ "x```y" := by
  refine ⟨?_, by rfl, by decide⟩
  intro s
  exact ⟨cleanChars_no_ticks s.data, cleanChars_no_fence_marker s.data⟩

/-- Counterexample to claim C5 as stated: on a page containing a script
element, `scrape_url` keeps the script's code in its output - `get_text`
does not strip script/style content - so the result differs from the
spec's visible-text-only reading. -/
theorem c5_counterexample :
    scrape_url (.response 200 "<p>Hi</p><script>alert(1)</script>")
      = "Hi alert(1)" ∧
    specVisibleText "<p>Hi</p><script>alert(1)</script>" = "Hi" ∧
    scrape_url (.response 200 "<p>Hi</p><script>alert(1)</script>")
      ≠ specVisibleText "<p>Hi</p><script>alert(1)</script>" :=
  ⟨by rfl, by rfl, by decide⟩

/-- Claim C5 as amended: for every returned response - the status code is
never consulted, so error statuses behave like 200 - `scrape_url`
returns the page's text fragments (including script and style contents),
each stripped of surrounding whitespace, joined by single spaces, and
truncated to the first 10,000 characters. -/
theorem c5_text_truncation (status : Nat) (body : String) :
    scrape_url (.response status body)
      = ⟨(soup_get_text body).data.take 10000⟩ ∧
    (scrape_url (.response status body)).length ≤ 10000 ∧
    scrape_url (.response status body) = scrape_url (.response 200 body) := by
  refine ⟨rfl, ?_, rfl⟩
  show ((soup_get_text body).data.take 10000).length ≤ 10000
  rw [List.length_take]
  exact Nat.min_le_left _ _

/-- Counterexample to claim C6 as stated: an HTTP failure response (here
a 404) raises no exception in `requests.get`, so `scrape_url` returns
the error page's scraped text, not an error description. -/
theorem c6_counterexample :
    scrape_url (.response 404 "<html><body>Not Found</body></html>")
      = "Not Found" ∧
    ¬ ("Error scraping URL: ".data <+:
      (scrape_url (.response 404 "<html><body>Not Found</body></html>")).data) :=
  ⟨by rfl, by decide⟩

/-- Claim C6 as amended: for every fetch that raises (network failure,
unreachable host, timeout), `scrape_url` does not raise either - it
returns the error-description string `Error scraping URL: <message>`;
HTTP error statuses, however, are scraped like successes. -/
theorem c6_exception_text (e : String) :
    scrape_url (.exception e) = "Error scraping URL: " ++ e ∧
    "Error scraping URL: ".data <+: (scrape_url (.exception e)).data := by
  refine ⟨rfl, ?_⟩
  show "Error scraping URL: ".data <+: ("Error scraping URL: " ++ e).data
  rw [String.data_append]
  exact List.prefix_append _ _

/-- Claim C7: both source kinds send the identical fixed contract string
as the first request part; the requests differ only in the task-specific
hint and the content part, and contain nothing else (in particular no
target schema). -/
theorem c7_fixed_contract (img : ImageContent) (outcome : FetchOutcome) :
    imageRequest img = [.text system_prompt, .text imageHint, .image img] ∧
    urlRequest outcome
      = [.text system_prompt, .text urlHint, .text (scrape_url outcome)] ∧
    (imageRequest img).head? = some (.text system_prompt) ∧
    (urlRequest outcome).head? = (imageRequest img).head? :=
  ⟨rfl, rfl, rfl, rfl⟩

/-- Counterexample to claim C8 as stated: a secrets store whose lookup
succeeds with the empty string stops the process even though a real,
non-empty key is present in the environment - so "missing from both
stores" is not the sole stopping condition. -/
theorem c8_counterexample :
    startupStops (some "") (some "AIzaSyRealKey") = true ∧
    ("AIzaSyRealKey" : String) ≠ "" :=
  ⟨rfl, by decide⟩

/-- Claim C8 as amended: startup stops exactly when the resolved
credential (the secrets value if the lookup succeeds, otherwise the
environment value) is missing or empty; in particular, absence from both
stores is fatal. -/
theorem c8_stop_characterization :
    (∀ secretsLookup envLookup : Option String,
      (startupStops secretsLookup envLookup = true ↔
        resolveApiKey secretsLookup envLookup = none ∨
        resolveApiKey secretsLookup envLookup = some "")) ∧
    startupStops none none = true := by
  refine ⟨?_, rfl⟩
  intro s e
  unfold startupStops
  cases hr : resolveApiKey s e with
  | none => simp
  | some k => simp [beq_iff_eq]

end Vizon
